import Mathlib

/-!
Verification development for the `DyNAThetaLinear` layer
(`src/dyna/dyna_theta_linear.py`).

Two complementary shallow embeddings of `DyNAThetaLinear.forward` are given:

* a *shape semantics*: every tensor operation of `forward` is mirrored by a
  function on axis-size lists returning `Option (List Nat)`, where `none`
  means the corresponding torch call raises.  Axis lists are kept
  innermost-first (reversed) internally, because every operation of the
  source addresses axes by negative (from-the-end) indices; public wrappers
  convert back to the usual outermost-first order.

* a *value semantics*: at conformant shapes, tensors are total functions
  from `Fin`-indices to `ℚ` (the source computes over floats; the pipeline
  uses only `+` and `*`, so exact arithmetic is used here).  Batch axes are
  abstracted into a single index type `β`, which is faithful because every
  operation of `forward` treats the leading batch axes uniformly.
  The normalization sub-modules (`nn.LayerNorm` or `nn.Identity`, chosen by
  the constructor flags) are passed as explicit function parameters; the
  flags-off configuration instantiates them with `id`, exactly as
  `nn.Identity` behaves.
-/

namespace DyNA

/-- Broadcast of a single axis pair (torch rule: sizes are equal, or one of
them is `1`). -/
def bdim (a b : Nat) : Option Nat :=
  if a = 1 then some b else if b = 1 then some a else if a = b then some a else none

/-- Broadcast of two shapes, axis lists innermost-first; torch aligns shapes
from the trailing axis and pads the shorter one with `1`s. -/
def bcast : List Nat → List Nat → Option (List Nat)
  | [], ys => some ys
  | xs, [] => some xs
  | x :: xs, y :: ys => do
    let d ← bdim x y
    let rest ← bcast xs ys
    pure (d :: rest)

/-- Shape of `t.permute([*range(r-2), -1, -2])` (line 160): swap the last two
axes; the permute list is malformed for rank < 2. -/
def permuteSwapLast2 : List Nat → Option (List Nat)
  | a :: b :: rest => some (b :: a :: rest)
  | _ => none

/-- Shape of `t.unsqueeze(-3)` (line 163): insert a singleton third-from-last
axis; valid only for rank ≥ 2. -/
def unsqueezeNeg3 : List Nat → Option (List Nat)
  | a :: b :: rest => some (a :: b :: 1 :: rest)
  | _ => none

/-- Shape of `t.unsqueeze(-1)`: append a trailing singleton axis. -/
def unsqueezeNeg1 (s : List Nat) : Option (List Nat) :=
  some (1 :: s)

/-- Shape of `torch.sum(t, dim=-3)` (line 185): drop the third-from-last
axis; valid only for rank ≥ 3. -/
def sumNeg3 : List Nat → Option (List Nat)
  | a :: b :: _ :: rest => some (a :: b :: rest)
  | _ => none

/-- Shape of `torch.sum(t, dim=-2)` (line 216): drop the second-from-last
axis; valid only for rank ≥ 2. -/
def sumNeg2 : List Nat → Option (List Nat)
  | a :: _ :: rest => some (a :: rest)
  | _ => none

/-- Shape of `t.squeeze(-1)` (line 204): drop the last axis iff its size is
`1`; valid only for rank ≥ 1. -/
def squeezeNeg1 : List Nat → Option (List Nat)
  | a :: rest => some (if a = 1 then rest else a :: rest)
  | _ => none

/-- Shape check of `nn.LayerNorm([d1, d2])`: the two trailing axes of the
input must equal `(d1, d2)` exactly (no broadcasting); the shape is
preserved. -/
def layerNorm2Shape (d1 d2 : Nat) : List Nat → Option (List Nat)
  | a :: b :: rest => if b = d1 ∧ a = d2 then some (a :: b :: rest) else none
  | _ => none

/-- Shape of `F.linear(x, weight, bias)` with `weight : [o, i]`: the last
axis of `x` must equal `i` exactly and becomes `o`. -/
def linearShape (i o : Nat) : List Nat → Option (List Nat)
  | a :: rest => if a = i then some (o :: rest) else none
  | _ => none

/-- Shape of `torch.einsum("...ij,ijk -> ...ik", t, w)` with `w : [f, m, k]`
(lines 203 and 219): the labels `i`, `j` match between the operands with
size-1 broadcasting (numpy/torch einsum semantics); output keeps the batch
axes and the broadcast `i`, and gains `k`. -/
def einsum_ij_ijk (f m k : Nat) : List Nat → Option (List Nat)
  | j :: i :: rest => do
    let _ ← bdim j m
    let iOut ← bdim i f
    pure (k :: iOut :: rest)
  | _ => none

/-- Shape of `torch.einsum("...ij,ij -> ...ij", t, w)` with `w : [o, k]`
(line 224): elementwise product with size-1 broadcasting on `i`, `j`. -/
def einsum_ij_ij (o k : Nat) : List Nat → Option (List Nat)
  | j :: i :: rest => do
    let jOut ← bdim j k
    let iOut ← bdim i o
    pure (jOut :: iOut :: rest)
  | _ => none

/-- Shape of `t.reshape([*t.shape[:-1], m, -1])` (line 235): PyTorch infers
the `-1` slot from the element count; inference fails when the known product
is zero or does not divide the total (rank ≥ 1 at this point of the
pipeline). -/
def reshapeSplitNeg1 (m : Nat) : List Nat → Option (List Nat)
  | q :: rest =>
    let known := m * rest.prod
    let total := q * rest.prod
    if known ≠ 0 ∧ total % known = 0 then some ((total / known) :: m :: rest) else none
  | _ => none

/-- Shape of `t.permute([*range(r-3), -2, -1, -3])` (line 242): move the
third-from-last axis to the end ("features last"); rank ≥ 3. -/
def permuteFeaturesLast : List Nat → Option (List Nat)
  | a :: b :: c :: rest => some (c :: a :: b :: rest)
  | _ => none

/-- `theta_feautures` (spelling of the source, line 28):
`out_features if theta_full_features else 1`. -/
def thetaFeautures : Bool → Nat → Nat
  | true, o => o
  | false, _ => 1

/-- Constructor configuration of `DyNAThetaLinear` (lines 10-30). -/
structure Cfg where
  in_features : Nat
  out_features : Nat
  theta_modes_in : Nat
  theta_modes_out : Nat
  theta_full_features : Bool
  theta_normalize_env_input : Bool
  theta_normalize_env_output : Bool

/-- `self.theta_feautures` (line 28). -/
def Cfg.theta_feautures (c : Cfg) : Nat :=
  thetaFeautures c.theta_full_features c.out_features

/-- Shape of `components.permute([*range(r-2), -1, -2]).unsqueeze(-3)`
(lines 160-163), innermost-first axis lists. -/
def componentsPerInputShapeR (cs : List Nat) : Option (List Nat) :=
  (permuteSwapLast2 cs).bind unsqueezeNeg3

/-- Shape of `individual_sensetivity.reshape([*ones, out, in, 1]) *
components_per_input` (lines 168-176), innermost-first axis lists; the
number of padding `1`s is `len(components.shape[:-2])`. -/
def iswShapeR (c : Cfg) (cs : List Nat) : Option (List Nat) :=
  (componentsPerInputShapeR cs).bind fun s =>
    bcast (1 :: c.in_features :: c.out_features :: List.replicate (cs.length - 2) 1) s

/-- Shape of `cumulative_env_inputs = torch.sum(·, dim=-3)` (line 185),
innermost-first axis lists. -/
def ceiShapeR (c : Cfg) (cs : List Nat) : Option (List Nat) :=
  (iswShapeR c cs).bind sumNeg3

/-- Shape of `cumulative_env_outputs = torch.sum(·, dim=-2)` (line 216),
innermost-first axis lists. -/
def ceoShapeR (c : Cfg) (cs : List Nat) : Option (List Nat) :=
  (iswShapeR c cs).bind sumNeg2

/-- Shape of `env_normalized` (lines 185-192): cumulative input-side sum,
elementwise `env_sensetivity` multiply and `env_bias` add (both reshaped
with `len(components.shape[:-2])` leading `1`s), then `norm_env_input`
(`nn.LayerNorm([in_features, theta_modes_in])` or `nn.Identity`). -/
def envNormalizedShapeR (c : Cfg) (cs : List Nat) : Option (List Nat) := do
  let cei ← ceiShapeR c cs
  let envS := c.theta_modes_in :: c.in_features :: List.replicate (cs.length - 2) 1
  let envSensed ← bcast cei envS
  let envBiased ← bcast envSensed envS
  if c.theta_normalize_env_input then
    layerNorm2Shape c.in_features c.theta_modes_in envBiased
  else some envBiased

/-- Shape of `perceptual_x` (lines 202-205): `x.unsqueeze(-1)` broadcast
product, einsum against `perception : [in_features, theta_modes_in, 1]`,
`squeeze(-1)`, `+ perceptual_bias : [in_features]`. -/
def perceptualShapeR (c : Cfg) (xs cs : List Nat) : Option (List Nat) := do
  let envNormalized ← envNormalizedShapeR c cs
  let xe ← unsqueezeNeg1 xs
  let pxa ← bcast xe envNormalized
  let pxb ← einsum_ij_ijk c.in_features c.theta_modes_in 1 pxa
  let pxc ← squeezeNeg1 pxb
  bcast pxc [c.in_features]

/-- Shape of `transformed_x` (line 206): the inherited `nn.Linear.forward`
applied to `perceptual_x`. -/
def transformedShapeR (c : Cfg) (xs cs : List Nat) : Option (List Nat) := do
  let px ← perceptualShapeR c xs cs
  linearShape c.in_features c.out_features px

/-- Shape of `modulated_env` after `norm_env_output` (lines 216-218). -/
def modulatedEnvShapeR (c : Cfg) (xs cs : List Nat) : Option (List Nat) := do
  let ceo ← ceoShapeR c cs
  let tx ← transformedShapeR c xs cs
  let txe ← unsqueezeNeg1 tx
  let mea ← bcast ceo txe
  if c.theta_normalize_env_output then
    layerNorm2Shape c.out_features c.theta_modes_in mea
  else some mea

/-- Shape of `param_quads` (lines 219-249): emission einsum, scale einsum,
bias add (reshaped with `len(emission_scaled.shape[:-2])` leading `1`s),
reshape of the last axis into `[theta_modes_out, -1]`, features-last
permute. -/
def paramQuadsShapeR (c : Cfg) (xs cs : List Nat) : Option (List Nat) := do
  let me ← modulatedEnvShapeR c xs cs
  let er ← einsum_ij_ijk c.theta_feautures c.theta_modes_in (c.theta_modes_out * 4) me
  let esc ← einsum_ij_ij c.out_features (c.theta_modes_out * 4) er
  let eb ← bcast esc ((c.theta_modes_out * 4) :: c.out_features :: List.replicate (esc.length - 2) 1)
  let pq ← reshapeSplitNeg1 c.theta_modes_out eb
  permuteFeaturesLast pq

/-- Shape semantics of `DyNAThetaLinear.forward` (lines 134-251), axis lists
innermost-first; each stage mirrors the tensor operations of the source in
source order, and `none` means the corresponding torch call raises. -/
def forwardShapeR (c : Cfg) (xs cs : List Nat) : Option (List Nat × List Nat) := do
  let tx ← transformedShapeR c xs cs
  let pq ← paramQuadsShapeR c xs cs
  pure (tx, pq)

/-- Shape semantics of `forward` with axis lists in the usual
outermost-first order. -/
def forwardShape (c : Cfg) (xshape cshape : List Nat) : Option (List Nat × List Nat) :=
  (forwardShapeR c xshape.reverse cshape.reverse).map fun p => (p.1.reverse, p.2.reverse)

/-- `componentsPerInputShapeR` in the usual outermost-first order. -/
def componentsPerInputShape (cshape : List Nat) : Option (List Nat) :=
  (componentsPerInputShapeR cshape.reverse).map List.reverse

/-- `iswShapeR` in the usual outermost-first order. -/
def iswShape (c : Cfg) (cshape : List Nat) : Option (List Nat) :=
  (iswShapeR c cshape.reverse).map List.reverse

/-- `ceiShapeR` in the usual outermost-first order. -/
def ceiShape (c : Cfg) (cshape : List Nat) : Option (List Nat) :=
  (ceiShapeR c cshape.reverse).map List.reverse

/-- `ceoShapeR` in the usual outermost-first order. -/
def ceoShape (c : Cfg) (cshape : List Nat) : Option (List Nat) :=
  (ceoShapeR c cshape.reverse).map List.reverse

/-- `perceptualShapeR` in the usual outermost-first order. -/
def perceptualShape (c : Cfg) (xshape cshape : List Nat) : Option (List Nat) :=
  (perceptualShapeR c xshape.reverse cshape.reverse).map List.reverse

/-- `transformedShapeR` in the usual outermost-first order. -/
def transformedShape (c : Cfg) (xshape cshape : List Nat) : Option (List Nat) :=
  (transformedShapeR c xshape.reverse cshape.reverse).map List.reverse

/-- Learnable parameters of `DyNAThetaLinear` (lines 21-98), at the shapes
the constructor gives them.  `weight`/`bias` are the inherited `nn.Linear`
parameters; the field names keep the source spelling. -/
structure ThetaParams (I O M N : Nat) (full : Bool) where
  individual_sensetivity : Fin O → Fin I → Fin 1 → ℚ
  env_sensetivity : Fin I → Fin M → ℚ
  env_bias : Fin I → Fin M → ℚ
  perception : Fin I → Fin M → Fin 1 → ℚ
  perceptual_bias : Fin I → ℚ
  emission : Fin (thetaFeautures full O) → Fin M → Fin (N * 4) → ℚ
  emission_scale : Fin O → Fin (N * 4) → ℚ
  emission_bias : Fin O → Fin (N * 4) → ℚ
  weight : Fin O → Fin I → ℚ
  bias : Fin O → ℚ

/-- Resolution of the einsum label `i` between `modulated_env` (size
`out_features`) and `emission` (size `theta_feautures`, line 219): torch
einsum broadcasts a size-1 operand dimension by repeating its only slice;
a size-`out_features` dimension is indexed directly. -/
def emissionAt {O M K : Nat} :
    (full : Bool) → (Fin (thetaFeautures full O) → Fin M → Fin K → ℚ) →
      Fin O → Fin M → Fin K → ℚ
  | true, em, o => em o
  | false, em, _ => em ⟨0, Nat.one_pos⟩

/-- Flat index of entry `(n, q)` of the last axis after
`reshape([*shape[:-1], theta_modes_out, -1])` (line 235): row-major split
of an axis of size `theta_modes_out * 4`. -/
def quadIdx {N : Nat} (n : Fin N) (q : Fin 4) : Fin (N * 4) :=
  ⟨n.val * 4 + q.val, by have hn := n.isLt; have hq := q.isLt; omega⟩

section ValueModel

variable {I O M N : Nat} {full : Bool} {β : Type}

/-- Value view of `components_per_input` (lines 160-163): after the
swap-last-two permute and `unsqueeze(-3)` the tensor reads, at batch `b`,
singleton output slot, input neuron `i`, mode `m`, the source entry
`components[b, m, i]`. -/
def components_per_input (components : β → Fin M → Fin I → ℚ) :
    β → Fin 1 → Fin I → Fin M → ℚ :=
  fun b _ i m => components b m i

/-- Value view of the step-2 broadcast product (lines 168-176):
`individual_sensetivity.reshape([*ones, O, I, 1]) * components_per_input`;
the singleton output axis of the right factor and the singleton mode axis
of the left factor broadcast. -/
def individual_sensetivity_weighted (p : ThetaParams I O M N full)
    (components : β → Fin M → Fin I → ℚ) : β → Fin O → Fin I → Fin M → ℚ :=
  fun b o i m => p.individual_sensetivity o i 0 * components_per_input components b 0 i m

/-- `cumulative_env_inputs = torch.sum(·, dim=-3)` (line 185): at ranks
`[*B, O, I, M]`, axis `-3` is the output-neuron axis. -/
def cumulative_env_inputs (p : ThetaParams I O M N full)
    (components : β → Fin M → Fin I → ℚ) : β → Fin I → Fin M → ℚ :=
  fun b i m => ∑ o : Fin O, individual_sensetivity_weighted p components b o i m

/-- `env_sensed` (line 186): elementwise multiply by `env_sensetivity`,
broadcast over the batch axes. -/
def env_sensed (p : ThetaParams I O M N full)
    (components : β → Fin M → Fin I → ℚ) : β → Fin I → Fin M → ℚ :=
  fun b i m => cumulative_env_inputs p components b i m * p.env_sensetivity i m

/-- `env_biased` (line 189): add `env_bias`, broadcast over the batch
axes. -/
def env_biased (p : ThetaParams I O M N full)
    (components : β → Fin M → Fin I → ℚ) : β → Fin I → Fin M → ℚ :=
  fun b i m => env_sensed p components b i m + p.env_bias i m

/-- `env_normalized = self.norm_env_input(env_biased)` (line 192); the
normalization module chosen at construction is passed as the function
`nIn` (`nn.Identity` is `id`). -/
def env_normalized (nIn : (β → Fin I → Fin M → ℚ) → β → Fin I → Fin M → ℚ)
    (p : ThetaParams I O M N full) (components : β → Fin M → Fin I → ℚ) :
    β → Fin I → Fin M → ℚ :=
  nIn (env_biased p components)

/-- `perceptual_x` (lines 202-205): `x.unsqueeze(-1) * env_normalized`,
einsum `"...ij,ijk -> ...ik"` against `perception`, `squeeze(-1)`, then
`+ perceptual_bias`. -/
def perceptual_x (nIn : (β → Fin I → Fin M → ℚ) → β → Fin I → Fin M → ℚ)
    (p : ThetaParams I O M N full) (x : β → Fin I → ℚ)
    (components : β → Fin M → Fin I → ℚ) : β → Fin I → ℚ :=
  let gated := fun b (i : Fin I) (m : Fin M) =>
    x b i * env_normalized nIn p components b i m
  let contracted := fun b (i : Fin I) (k : Fin 1) =>
    ∑ m : Fin M, gated b i m * p.perception i m k
  let squeezed := fun b (i : Fin I) => contracted b i 0
  fun b i => squeezed b i + p.perceptual_bias i

/-- `transformed_x` (line 206): the inherited `nn.Linear.forward`, that is
`perceptual_x @ weight.T + bias`. -/
def transformed_x (nIn : (β → Fin I → Fin M → ℚ) → β → Fin I → Fin M → ℚ)
    (p : ThetaParams I O M N full) (x : β → Fin I → ℚ)
    (components : β → Fin M → Fin I → ℚ) : β → Fin O → ℚ :=
  fun b o => (∑ i : Fin I, perceptual_x nIn p x components b i * p.weight o i) + p.bias o

/-- `cumulative_env_outputs = torch.sum(·, dim=-2)` (line 216): at ranks
`[*B, O, I, M]`, axis `-2` is the input-neuron axis. -/
def cumulative_env_outputs (p : ThetaParams I O M N full)
    (components : β → Fin M → Fin I → ℚ) : β → Fin O → Fin M → ℚ :=
  fun b o m => ∑ i : Fin I, individual_sensetivity_weighted p components b o i m

/-- `modulated_env` (lines 217-218): gate by `transformed_x.unsqueeze(-1)`
then apply `norm_env_output`, passed as the function `nOut`. -/
def modulated_env (nIn : (β → Fin I → Fin M → ℚ) → β → Fin I → Fin M → ℚ)
    (nOut : (β → Fin O → Fin M → ℚ) → β → Fin O → Fin M → ℚ)
    (p : ThetaParams I O M N full) (x : β → Fin I → ℚ)
    (components : β → Fin M → Fin I → ℚ) : β → Fin O → Fin M → ℚ :=
  nOut (fun b o m =>
    cumulative_env_outputs p components b o m * transformed_x nIn p x components b o)

/-- `emission_raw` (lines 219-223): einsum `"...ij,ijk -> ...ik"` against
`emission`, with the `i` label broadcast per `emissionAt`. -/
def emission_raw (nIn : (β → Fin I → Fin M → ℚ) → β → Fin I → Fin M → ℚ)
    (nOut : (β → Fin O → Fin M → ℚ) → β → Fin O → Fin M → ℚ)
    (p : ThetaParams I O M N full) (x : β → Fin I → ℚ)
    (components : β → Fin M → Fin I → ℚ) : β → Fin O → Fin (N * 4) → ℚ :=
  fun b o k =>
    ∑ m : Fin M, modulated_env nIn nOut p x components b o m * emissionAt full p.emission o m k

/-- `emission_scaled` (lines 224-228): einsum `"...ij,ij -> ...ij"` against
`emission_scale`, an elementwise product here. -/
def emission_scaled (nIn : (β → Fin I → Fin M → ℚ) → β → Fin I → Fin M → ℚ)
    (nOut : (β → Fin O → Fin M → ℚ) → β → Fin O → Fin M → ℚ)
    (p : ThetaParams I O M N full) (x : β → Fin I → ℚ)
    (components : β → Fin M → Fin I → ℚ) : β → Fin O → Fin (N * 4) → ℚ :=
  fun b o k => emission_raw nIn nOut p x components b o k * p.emission_scale o k

/-- `emission_biased` (lines 229-234): add `emission_bias`, broadcast over
the batch axes. -/
def emission_biased (nIn : (β → Fin I → Fin M → ℚ) → β → Fin I → Fin M → ℚ)
    (nOut : (β → Fin O → Fin M → ℚ) → β → Fin O → Fin M → ℚ)
    (p : ThetaParams I O M N full) (x : β → Fin I → ℚ)
    (components : β → Fin M → Fin I → ℚ) : β → Fin O → Fin (N * 4) → ℚ :=
  fun b o k => emission_scaled nIn nOut p x components b o k + p.emission_bias o k

/-- `param_quads` (lines 235-249): split the last axis into
`[theta_modes_out, 4]` (row-major) and permute features-last, so entry
`(b, n, q, o)` reads `emission_biased[b, o, n*4+q]`. -/
def param_quads (nIn : (β → Fin I → Fin M → ℚ) → β → Fin I → Fin M → ℚ)
    (nOut : (β → Fin O → Fin M → ℚ) → β → Fin O → Fin M → ℚ)
    (p : ThetaParams I O M N full) (x : β → Fin I → ℚ)
    (components : β → Fin M → Fin I → ℚ) : β → Fin N → Fin 4 → Fin O → ℚ :=
  fun b n q o => emission_biased nIn nOut p x components b o (quadIdx n q)

/-- Value semantics of `DyNAThetaLinear.forward` at conformant shapes:
returns the pair `(transformed_x, param_quads)` (line 251). -/
def forwardV (nIn : (β → Fin I → Fin M → ℚ) → β → Fin I → Fin M → ℚ)
    (nOut : (β → Fin O → Fin M → ℚ) → β → Fin O → Fin M → ℚ)
    (p : ThetaParams I O M N full) (x : β → Fin I → ℚ)
    (components : β → Fin M → Fin I → ℚ) :
    (β → Fin O → ℚ) × (β → Fin N → Fin 4 → Fin O → ℚ) :=
  (transformed_x nIn p x components, param_quads nIn nOut p x components)

/-- State-passing view of `forward`: the method reads the parameters through
`self.*` but contains no assignment to `self` or to any module state, so the
layer state is returned unchanged next to the outputs. -/
def forwardStateful (nIn : (β → Fin I → Fin M → ℚ) → β → Fin I → Fin M → ℚ)
    (nOut : (β → Fin O → Fin M → ℚ) → β → Fin O → Fin M → ℚ)
    (p : ThetaParams I O M N full) (x : β → Fin I → ℚ)
    (components : β → Fin M → Fin I → ℚ) :
    ThetaParams I O M N full × ((β → Fin O → ℚ) × (β → Fin N → Fin 4 → Fin O → ℚ)) :=
  (p, forwardV nIn nOut p x components)

/-- Modelled from the spec (section 4.1, steps 1-10 with the two
normalization steps removed): an independent transcription of the forward
pipeline for the refinement claim about the flags-off configuration. -/
def specForwardNoNorm (p : ThetaParams I O M N full) (x : β → Fin I → ℚ)
    (components : β → Fin M → Fin I → ℚ) :
    (β → Fin O → ℚ) × (β → Fin N → Fin 4 → Fin O → ℚ) :=
  let weighted := fun b (o : Fin O) (i : Fin I) (m : Fin M) =>
    p.individual_sensetivity o i 0 * components b m i
  let envIn := fun b (i : Fin I) (m : Fin M) =>
    (∑ o : Fin O, weighted b o i m) * p.env_sensetivity i m + p.env_bias i m
  let px := fun b (i : Fin I) =>
    (∑ m : Fin M, x b i * envIn b i m * p.perception i m 0) + p.perceptual_bias i
  let tx := fun b (o : Fin O) => (∑ i : Fin I, px b i * p.weight o i) + p.bias o
  let envOut := fun b (o : Fin O) (m : Fin M) => (∑ i : Fin I, weighted b o i m) * tx b o
  let emitted := fun b (o : Fin O) (k : Fin (N * 4)) =>
    (∑ m : Fin M, envOut b o m * emissionAt full p.emission o m k) * p.emission_scale o k
      + p.emission_bias o k
  (tx, fun b n q o => emitted b o (quadIdx n q))

end ValueModel

/-- A concrete layer state (`in_features = 1`, `out_features = 2`,
`theta_modes_in = theta_modes_out = 1`, `theta_full_features = False`) whose
two output neurons have distinct linear weights, so their activations — and
hence their `modulated_env` rows — differ. -/
def pShared : ThetaParams 1 2 1 1 false where
  individual_sensetivity := fun _ _ _ => 1
  env_sensetivity := fun _ _ => 1
  env_bias := fun _ _ => 0
  perception := fun _ _ _ => 1
  perceptual_bias := fun _ => 0
  emission := fun _ _ _ => 0
  emission_scale := fun _ _ => 1
  emission_bias := fun _ _ => 0
  weight := fun o _ => if o.val = 0 then 1 else 2
  bias := fun _ => 0

/-- `pShared` with the (shared) `emission` weights perturbed from `0` to
`1`. -/
def pSharedPerturbed : ThetaParams 1 2 1 1 false :=
  { pShared with emission := fun _ _ _ => 1 }

/-- A concrete layer state with all-zero `individual_sensetivity` but
nonzero `env_bias`. -/
def pZeroSens : ThetaParams 1 1 1 1 true where
  individual_sensetivity := fun _ _ _ => 0
  env_sensetivity := fun _ _ => 0
  env_bias := fun _ _ => 1
  perception := fun _ _ _ => 1
  perceptual_bias := fun _ => 0
  emission := fun _ _ _ => 0
  emission_scale := fun _ _ => 1
  emission_bias := fun _ _ => 0
  weight := fun _ _ => 1
  bias := fun _ => 0

/-- `pZeroSens` with `env_bias` zeroed as well. -/
def pZeroSensZeroBias : ThetaParams 1 1 1 1 true :=
  { pZeroSens with env_bias := fun _ _ => 0 }

/-- A concrete layer state with every parameter nonzero. -/
def pBase : ThetaParams 1 1 1 1 true where
  individual_sensetivity := fun _ _ _ => 1
  env_sensetivity := fun _ _ => 1
  env_bias := fun _ _ => 1
  perception := fun _ _ _ => 1
  perceptual_bias := fun _ => 1
  emission := fun _ _ _ => 1
  emission_scale := fun _ _ => 1
  emission_bias := fun _ _ => 1
  weight := fun _ _ => 1
  bias := fun _ => 1

/-- `pBase` with all three emission-side parameters changed. -/
def pBaseEmissionChanged : ThetaParams 1 1 1 1 true :=
  { pBase with emission := fun _ _ _ => 5, emission_scale := fun _ _ => 7,
               emission_bias := fun _ _ => 9 }

@[simp]
lemma bdim_one_left (b : Nat) : bdim 1 b = some b := by
  simp [bdim]

@[simp]
lemma bdim_one_right (a : Nat) : bdim a 1 = some a := by
  unfold bdim
  split
  · simp [*]
  · simp

@[simp]
lemma bdim_self (a : Nat) : bdim a a = some a := by
  unfold bdim
  split
  · simp [*]
  · simp

@[simp]
lemma bcast_nil_left (ys : List Nat) : bcast [] ys = some ys := by
  cases ys <;> rfl

@[simp]
lemma bcast_nil_right (xs : List Nat) : bcast xs [] = some xs := by
  cases xs <;> rfl

@[simp]
lemma bcast_cons (x y : Nat) (xs ys : List Nat) :
    bcast (x :: xs) (y :: ys) =
      (bdim x y).bind fun d => (bcast xs ys).bind fun rest => some (d :: rest) := by
  rfl

@[simp]
lemma bcast_self (xs : List Nat) : bcast xs xs = some xs := by
  induction xs with
  | nil => simp
  | cons x xs ih => simp [ih]

@[simp]
lemma bcast_replicate_one_left (xs : List Nat) :
    bcast (List.replicate xs.length 1) xs = some xs := by
  induction xs with
  | nil => simp
  | cons x xs ih => simp [List.replicate, ih]

@[simp]
lemma bcast_replicate_one_right (xs : List Nat) :
    bcast xs (List.replicate xs.length 1) = some xs := by
  induction xs with
  | nil => simp
  | cons x xs ih => simp [List.replicate, ih]

lemma iswShapeR_conformant (c : Cfg) (Br : List Nat) :
    iswShapeR c (c.in_features :: c.theta_modes_in :: Br) =
      some (c.theta_modes_in :: c.in_features :: c.out_features :: Br) := by
  simp [iswShapeR, componentsPerInputShapeR, permuteSwapLast2, unsqueezeNeg3]

lemma ceiShapeR_conformant (c : Cfg) (Br : List Nat) :
    ceiShapeR c (c.in_features :: c.theta_modes_in :: Br) =
      some (c.theta_modes_in :: c.in_features :: Br) := by
  simp [ceiShapeR, iswShapeR_conformant, sumNeg3]

lemma ceoShapeR_conformant (c : Cfg) (Br : List Nat) :
    ceoShapeR c (c.in_features :: c.theta_modes_in :: Br) =
      some (c.theta_modes_in :: c.out_features :: Br) := by
  simp [ceoShapeR, iswShapeR_conformant, sumNeg2]

lemma layerNorm2Shape_conformant (d1 d2 : Nat) (rest : List Nat) :
    layerNorm2Shape d1 d2 (d2 :: d1 :: rest) = some (d2 :: d1 :: rest) := by
  simp [layerNorm2Shape]

lemma envNormalizedShapeR_conformant (c : Cfg) (Br : List Nat) :
    envNormalizedShapeR c (c.in_features :: c.theta_modes_in :: Br) =
      some (c.theta_modes_in :: c.in_features :: Br) := by
  cases hn : c.theta_normalize_env_input <;>
    simp [envNormalizedShapeR, ceiShapeR_conformant, hn, layerNorm2Shape_conformant]

lemma perceptualShapeR_conformant (c : Cfg) (Br : List Nat) :
    perceptualShapeR c (c.in_features :: Br)
        (c.in_features :: c.theta_modes_in :: Br) =
      some (c.in_features :: Br) := by
  simp [perceptualShapeR, envNormalizedShapeR_conformant, unsqueezeNeg1,
    einsum_ij_ijk, squeezeNeg1]

lemma transformedShapeR_conformant (c : Cfg) (Br : List Nat) :
    transformedShapeR c (c.in_features :: Br)
        (c.in_features :: c.theta_modes_in :: Br) =
      some (c.out_features :: Br) := by
  simp [transformedShapeR, perceptualShapeR_conformant, linearShape]

lemma modulatedEnvShapeR_conformant (c : Cfg) (Br : List Nat) :
    modulatedEnvShapeR c (c.in_features :: Br)
        (c.in_features :: c.theta_modes_in :: Br) =
      some (c.theta_modes_in :: c.out_features :: Br) := by
  cases hn : c.theta_normalize_env_output <;>
    simp [modulatedEnvShapeR, ceoShapeR_conformant, transformedShapeR_conformant,
      unsqueezeNeg1, hn, layerNorm2Shape_conformant]

lemma reshapeSplitNeg1_quad (m : Nat) (rest : List Nat) (hpos : 0 < m * rest.prod) :
    reshapeSplitNeg1 m (m * 4 :: rest) = some (4 :: m :: rest) := by
  have htotal : m * 4 * rest.prod = 4 * (m * rest.prod) := by ring
  have hk : m * rest.prod ≠ 0 := by omega
  have hdiv : 4 * (m * rest.prod) / (m * rest.prod) = 4 :=
    Nat.mul_div_cancel 4 hpos
  simp [reshapeSplitNeg1, htotal, hk, Nat.mul_mod_right, hdiv]

lemma bdim_theta_feautures (c : Cfg) :
    bdim c.out_features c.theta_feautures = some c.out_features := by
  cases h : c.theta_full_features <;>
    simp [Cfg.theta_feautures, thetaFeautures, h]

lemma paramQuadsShapeR_conformant (c : Cfg) (Br : List Nat)
    (hpos : 0 < c.theta_modes_out * (c.out_features * Br.prod)) :
    paramQuadsShapeR c (c.in_features :: Br)
        (c.in_features :: c.theta_modes_in :: Br) =
      some (c.out_features :: 4 :: c.theta_modes_out :: Br) := by
  have hre := reshapeSplitNeg1_quad c.theta_modes_out (c.out_features :: Br)
    (by simpa using hpos)
  simp [paramQuadsShapeR, modulatedEnvShapeR_conformant, einsum_ij_ijk,
    einsum_ij_ij, bdim_theta_feautures, permuteFeaturesLast, hre]

lemma forwardShapeR_conformant (c : Cfg) (Br : List Nat)
    (hpos : 0 < c.theta_modes_out * (c.out_features * Br.prod)) :
    forwardShapeR c (c.in_features :: Br)
        (c.in_features :: c.theta_modes_in :: Br) =
      some (c.out_features :: Br, c.out_features :: 4 :: c.theta_modes_out :: Br) := by
  simp [forwardShapeR, transformedShapeR_conformant, paramQuadsShapeR_conformant c Br hpos]

lemma list_prod_pos (l : List Nat) (h : ∀ d ∈ l, 0 < d) : 0 < l.prod := by
  induction l with
  | nil => simp
  | cons x xs ih =>
    rw [List.prod_cons]
    exact Nat.mul_pos (h x (by simp)) (ih fun d hd => h d (by simp [hd]))

lemma bdim_none (a b : Nat) (ha : a ≠ 1) (hb : b ≠ 1) (hab : a ≠ b) :
    bdim a b = none := by
  simp [bdim, ha, hb, hab]

lemma forwardShapeR_of_isw_none (c : Cfg) (xs cs : List Nat)
    (h : iswShapeR c cs = none) : forwardShapeR c xs cs = none := by
  simp [forwardShapeR, transformedShapeR, perceptualShapeR, envNormalizedShapeR,
    ceiShapeR, paramQuadsShapeR, modulatedEnvShapeR, ceoShapeR, h]

lemma forwardShapeR_of_env_none (c : Cfg) (xs cs : List Nat)
    (h : envNormalizedShapeR c cs = none) : forwardShapeR c xs cs = none := by
  simp [forwardShapeR, transformedShapeR, perceptualShapeR, paramQuadsShapeR,
    modulatedEnvShapeR, h]

/-- C1 (amended): for conformant inputs with positive sizes, `forward`
returns `transformed_x : [*B, out_features]` and
`param_quads : [*B, theta_modes_out, 4, out_features]` — the trailing axis
is `out_features` for both settings of `theta_full_features`. -/
theorem C1_output_shapes (c : Cfg) (B : List Nat)
    (hO : 0 < c.out_features) (hN : 0 < c.theta_modes_out)
    (hB : ∀ d ∈ B, 0 < d) :
    forwardShape c (B ++ [c.in_features]) (B ++ [c.theta_modes_in, c.in_features]) =
      some (B ++ [c.out_features], B ++ [c.theta_modes_out, 4, c.out_features]) := by
  have hBr : 0 < B.reverse.prod := by
    rw [List.prod_reverse]
    exact list_prod_pos B hB
  have hcore := forwardShapeR_conformant c B.reverse
    (Nat.mul_pos hN (Nat.mul_pos hO hBr))
  simp [forwardShape, List.reverse_append, hcore]

/-- C1: counterexample to the claimed trailing axis.  With
`theta_full_features = False` (so `theta_feautures = 1`), `out_features = 2`
and batch `[3]`, the code returns `param_quads : [3, 1, 4, 2]`, not the
claimed `[*B, modes_out, 4, F] = [3, 1, 4, 1]`. -/
theorem C1_counterexample :
    forwardShape ⟨1, 2, 1, 1, false, true, true⟩ [3, 1] [3, 1, 1] =
      some ([3, 2], [3, 1, 4, 2]) ∧
    ([3, 1, 4, 2] : List Nat) ≠ [3] ++ [1, 4, thetaFeautures false 2] := by
  decide

/-- Witness for `C1_output_shapes` at `I = 3`, `O = 4`, `M = 2`, `N = 5`,
batch `[2]`. -/
theorem C1_witness :
    forwardShape ⟨3, 4, 2, 5, true, true, true⟩ ([2] ++ [3]) ([2] ++ [2, 3]) =
      some ([2] ++ [4], [2] ++ [5, 4, 4]) :=
  C1_output_shapes ⟨3, 4, 2, 5, true, true, true⟩ [2] (by decide) (by decide)
    (by decide)

lemma componentsPerInputShapeR_conformant (i m : Nat) (Br : List Nat) :
    componentsPerInputShapeR (i :: m :: Br) = some (m :: i :: 1 :: Br) := by
  simp [componentsPerInputShapeR, permuteSwapLast2, unsqueezeNeg3]

/-- C2 (amended): step 1 puts the *input-neuron* axis second-to-last and
the *mode* axis last, then inserts the singleton output axis, giving
`[*B, 1, in_features, theta_modes_in]`; the broadcast product with
`individual_sensetivity : [out, in, 1]` has shape
`[*B, out, in, theta_modes_in]` and entry
`individual_sensetivity[o, i, 0] * components[b, m, i]`. -/
theorem C2_rearrange_and_weighting (c : Cfg) (B : List Nat) :
    componentsPerInputShape (B ++ [c.theta_modes_in, c.in_features]) =
      some (B ++ [1, c.in_features, c.theta_modes_in]) ∧
    iswShape c (B ++ [c.theta_modes_in, c.in_features]) =
      some (B ++ [c.out_features, c.in_features, c.theta_modes_in]) ∧
    ∀ {I O M N : Nat} {full : Bool} {β : Type} (p : ThetaParams I O M N full)
      (components : β → Fin M → Fin I → ℚ) (b : β) (o : Fin O) (i : Fin I)
      (m : Fin M),
      individual_sensetivity_weighted p components b o i m =
        p.individual_sensetivity o i 0 * components b m i := by
  refine ⟨?_, ?_, fun p components b o i m => rfl⟩
  · simp [componentsPerInputShape, List.reverse_append,
      componentsPerInputShapeR_conformant]
  · simp [iswShape, List.reverse_append, iswShapeR_conformant]

/-- C2: counterexample to the claimed intermediate layout.  With batch
`[2]`, `theta_modes_in = 1`, `in_features = 3`, the rearranged `components`
has shape `[2, 1, 3, 1]` (`[*B, 1, in, modes_in]`), not the claimed
`[*B, 1, modes_in, in] = [2, 1, 1, 3]`. -/
theorem C2_counterexample :
    componentsPerInputShape [2, 1, 3] = some [2, 1, 3, 1] ∧
    ([2, 1, 3, 1] : List Nat) ≠ [2] ++ [1, 1, 3] := by
  decide

/-- C3: `cumulative_env_inputs` is the sum of the step-2 product over the
output-neuron axis (`dim=-3`), shape `[*B, in_features, theta_modes_in]`;
`cumulative_env_outputs` is the sum of the same tensor over the
input-neuron axis (`dim=-2`), shape `[*B, out_features, theta_modes_in]`. -/
theorem C3_cumulative_environments (c : Cfg) (B : List Nat) :
    ceiShape c (B ++ [c.theta_modes_in, c.in_features]) =
      some (B ++ [c.in_features, c.theta_modes_in]) ∧
    ceoShape c (B ++ [c.theta_modes_in, c.in_features]) =
      some (B ++ [c.out_features, c.theta_modes_in]) ∧
    (∀ {I O M N : Nat} {full : Bool} {β : Type} (p : ThetaParams I O M N full)
      (components : β → Fin M → Fin I → ℚ) (b : β) (i : Fin I) (m : Fin M),
      cumulative_env_inputs p components b i m =
        ∑ o : Fin O, individual_sensetivity_weighted p components b o i m) ∧
    (∀ {I O M N : Nat} {full : Bool} {β : Type} (p : ThetaParams I O M N full)
      (components : β → Fin M → Fin I → ℚ) (b : β) (o : Fin O) (m : Fin M),
      cumulative_env_outputs p components b o m =
        ∑ i : Fin I, individual_sensetivity_weighted p components b o i m) := by
  refine ⟨?_, ?_, fun p components b i m => rfl, fun p components b o m => rfl⟩
  · simp [ceiShape, List.reverse_append, ceiShapeR_conformant]
  · simp [ceoShape, List.reverse_append, ceoShapeR_conformant]

/-- C4: `perceptual_x` is `x` (trailing singleton) times the normalized
environment, contracted per input neuron against `perception` over modes,
squeezed, plus `perceptual_bias`, with shape `[*B, in_features]`;
`transformed_x` is the inherited affine map applied to `perceptual_x`, with
shape `[*B, out_features]`. -/
theorem C4_perceptual_and_projection (c : Cfg) (B : List Nat) :
    perceptualShape c (B ++ [c.in_features]) (B ++ [c.theta_modes_in, c.in_features]) =
      some (B ++ [c.in_features]) ∧
    transformedShape c (B ++ [c.in_features]) (B ++ [c.theta_modes_in, c.in_features]) =
      some (B ++ [c.out_features]) ∧
    ∀ {I O M N : Nat} {full : Bool} {β : Type}
      (nIn : (β → Fin I → Fin M → ℚ) → β → Fin I → Fin M → ℚ)
      (nOut : (β → Fin O → Fin M → ℚ) → β → Fin O → Fin M → ℚ)
      (p : ThetaParams I O M N full) (x : β → Fin I → ℚ)
      (components : β → Fin M → Fin I → ℚ) (b : β),
      (∀ i, perceptual_x nIn p x components b i =
        (∑ m : Fin M,
          x b i * env_normalized nIn p components b i m * p.perception i m 0)
          + p.perceptual_bias i) ∧
      (∀ o, (forwardV nIn nOut p x components).1 b o =
        (∑ i : Fin I, perceptual_x nIn p x components b i * p.weight o i)
          + p.bias o) := by
  refine ⟨?_, ?_, fun _ _ _ _ _ _ => ⟨fun _ => rfl, fun _ => rfl⟩⟩
  · simp [perceptualShape, List.reverse_append, perceptualShapeR_conformant]
  · simp [transformedShape, List.reverse_append, transformedShapeR_conformant]

/-- C5 (amended): with `theta_full_features = False`, `forward` succeeds
shape-wise for any `out_features`, and the emission contraction applies the
single shared slice `emission[0]` at every output index — but the induced
change of `param_quads` under an `emission` perturbation is still gated by
the per-output `modulated_env`, so it is not identical across output
indices. -/
theorem C5_shared_emission_weights (c : Cfg) (B : List Nat)
    (_hfull : c.theta_full_features = false)
    (hO : 0 < c.out_features) (hN : 0 < c.theta_modes_out)
    (hB : ∀ d ∈ B, 0 < d) :
    forwardShape c (B ++ [c.in_features]) (B ++ [c.theta_modes_in, c.in_features]) =
      some (B ++ [c.out_features], B ++ [c.theta_modes_out, 4, c.out_features]) ∧
    ∀ {I O M N : Nat} {β : Type}
      (nIn : (β → Fin I → Fin M → ℚ) → β → Fin I → Fin M → ℚ)
      (nOut : (β → Fin O → Fin M → ℚ) → β → Fin O → Fin M → ℚ)
      (p : ThetaParams I O M N false) (x : β → Fin I → ℚ)
      (components : β → Fin M → Fin I → ℚ) (b : β) (o : Fin O)
      (k : Fin (N * 4)),
      emission_raw nIn nOut p x components b o k =
        ∑ m : Fin M, modulated_env nIn nOut p x components b o m *
          p.emission ⟨0, Nat.one_pos⟩ m k := by
  have hBr : 0 < B.reverse.prod := by
    rw [List.prod_reverse]
    exact list_prod_pos B hB
  have hcore := forwardShapeR_conformant c B.reverse
    (Nat.mul_pos hN (Nat.mul_pos hO hBr))
  exact ⟨by simp [forwardShape, List.reverse_append, hcore],
    fun _ _ _ _ _ _ _ _ => rfl⟩

/-- C5: counterexample to "perturbing emission changes param_quads
identically regardless of output index": in the concrete shared-emission
state `pShared` (norms off), perturbing `emission` from `0` to `1` changes
`param_quads` at output 0 by `2` but at output 1 by `4`. -/
theorem C5_counterexample :
    param_quads id id pSharedPerturbed (fun _ _ => 1) (fun _ _ _ => 1) (0 : Fin 1) 0 0 0 -
      param_quads id id pShared (fun _ _ => 1) (fun _ _ _ => 1) (0 : Fin 1) 0 0 0 ≠
    param_quads id id pSharedPerturbed (fun _ _ => 1) (fun _ _ _ => 1) (0 : Fin 1) 0 0 1 -
      param_quads id id pShared (fun _ _ => 1) (fun _ _ _ => 1) (0 : Fin 1) 0 0 1 := by
  norm_num [param_quads, emission_biased, emission_scaled, emission_raw,
    modulated_env, cumulative_env_outputs, transformed_x, perceptual_x,
    env_normalized, env_biased, env_sensed, cumulative_env_inputs,
    individual_sensetivity_weighted, components_per_input, emissionAt,
    pShared, pSharedPerturbed, Fin.sum_univ_two, Fin.sum_univ_one]

/-- Witness for `C5_shared_emission_weights` at `I = 3`, `O = 4`, `M = 2`,
`N = 5`, batch `[2]`. -/
theorem C5_witness :
    forwardShape ⟨3, 4, 2, 5, false, true, true⟩ ([2] ++ [3]) ([2] ++ [2, 3]) =
      some ([2] ++ [4], [2] ++ [5, 4, 4]) :=
  (C5_shared_emission_weights ⟨3, 4, 2, 5, false, true, true⟩ [2] rfl (by decide)
    (by decide) (by decide)).1

/-- C6: with both normalization flags off the construction picks
`nn.Identity` twice, so step 4 is the identity on `env_biased`, step 8 is
the identity on the gated tensor, and `forward` coincides with the
spec-side pipeline that removes the two normalization steps. -/
theorem C6_normalization_off_identity :
    ∀ {I O M N : Nat} {full : Bool} {β : Type} (p : ThetaParams I O M N full)
      (x : β → Fin I → ℚ) (components : β → Fin M → Fin I → ℚ),
      env_normalized id p components = env_biased p components ∧
      modulated_env id id p x components = (fun b o m =>
        cumulative_env_outputs p components b o m *
          transformed_x id p x components b o) ∧
      forwardV id id p x components = specForwardNoNorm p x components :=
  fun _ _ _ => ⟨rfl, rfl, rfl⟩

/-- C7 (amended): zero `individual_sensetivity` zeroes the step-2 product
and (norms off) collapses `param_quads` to broadcast `emission_bias`; but
`perceptual_x` keeps the `env_bias`-gated contraction of `x` and collapses
to `perceptual_bias` alone only when `env_bias` is zero too. -/
theorem C7_zero_sensitivity {I O M N : Nat} {full : Bool} {β : Type}
    (p : ThetaParams I O M N full) (x : β → Fin I → ℚ)
    (components : β → Fin M → Fin I → ℚ)
    (h : ∀ o i k, p.individual_sensetivity o i k = 0) :
    (∀ (b : β) (o : Fin O) (i : Fin I) (m : Fin M),
      individual_sensetivity_weighted p components b o i m = 0) ∧
    (∀ (b : β) (i : Fin I), perceptual_x id p x components b i =
      (∑ m : Fin M, x b i * p.env_bias i m * p.perception i m 0)
        + p.perceptual_bias i) ∧
    ((∀ i m, p.env_bias i m = 0) → ∀ (b : β) (i : Fin I),
      perceptual_x id p x components b i = p.perceptual_bias i) ∧
    (∀ (b : β) (n : Fin N) (q : Fin 4) (o : Fin O),
      param_quads id id p x components b n q o =
        p.emission_bias o (quadIdx n q)) := by
  have hw : ∀ (b : β) (o : Fin O) (i : Fin I) (m : Fin M),
      individual_sensetivity_weighted p components b o i m = 0 := by
    intro b o i m
    simp [individual_sensetivity_weighted, h]
  have henv : ∀ (b : β) (i : Fin I) (m : Fin M),
      env_biased p components b i m = p.env_bias i m := by
    intro b i m
    simp [env_biased, env_sensed, cumulative_env_inputs, hw]
  have hpx : ∀ (b : β) (i : Fin I), perceptual_x id p x components b i =
      (∑ m : Fin M, x b i * p.env_bias i m * p.perception i m 0)
        + p.perceptual_bias i := by
    intro b i
    simp only [perceptual_x, env_normalized, id]
    congr 1
    exact Finset.sum_congr rfl fun m _ => by rw [henv]
  refine ⟨hw, hpx, ?_, ?_⟩
  · intro hz b i
    rw [hpx]
    simp [hz]
  · intro b n q o
    have hceo : ∀ (b : β) (o : Fin O) (m : Fin M),
        cumulative_env_outputs p components b o m = 0 := by
      intro b o m
      simp [cumulative_env_outputs, hw]
    simp [param_quads, emission_biased, emission_scaled, emission_raw,
      modulated_env, hceo]

/-- C7: counterexample.  In `pZeroSens` (`individual_sensetivity = 0` but
`env_bias = 1`, norms off), at `x = 1` the value of `perceptual_x` is `1`,
not `perceptual_bias = 0`. -/
theorem C7_counterexample :
    (∀ o i k, pZeroSens.individual_sensetivity o i k = 0) ∧
    perceptual_x id pZeroSens (fun _ _ => 1) (fun _ _ _ => 1) (0 : Fin 1) 0 ≠
      pZeroSens.perceptual_bias 0 := by
  constructor
  · intro o i k
    rfl
  · norm_num [perceptual_x, env_normalized, env_biased, env_sensed,
      cumulative_env_inputs, individual_sensetivity_weighted,
      components_per_input, pZeroSens, Fin.sum_univ_one]

/-- Witness for `C7_zero_sensitivity` on `pZeroSensZeroBias`. -/
theorem C7_witness :
    (∀ (b : Fin 1) (o : Fin 1) (i : Fin 1) (m : Fin 1),
      individual_sensetivity_weighted pZeroSensZeroBias (fun _ _ _ => 1) b o i m = 0) ∧
    (∀ (b : Fin 1) (i : Fin 1),
      perceptual_x id pZeroSensZeroBias (fun _ _ => 1) (fun _ _ _ => 1) b i =
        (∑ m : Fin 1, (fun (_ : Fin 1) (_ : Fin 1) => (1 : ℚ)) b i *
          pZeroSensZeroBias.env_bias i m * pZeroSensZeroBias.perception i m 0)
          + pZeroSensZeroBias.perceptual_bias i) ∧
    ((∀ i m, pZeroSensZeroBias.env_bias i m = 0) → ∀ (b : Fin 1) (i : Fin 1),
      perceptual_x id pZeroSensZeroBias (fun _ _ => 1) (fun _ _ _ => 1) b i =
        pZeroSensZeroBias.perceptual_bias i) ∧
    (∀ (b : Fin 1) (n : Fin 1) (q : Fin 4) (o : Fin 1),
      param_quads id id pZeroSensZeroBias (fun _ _ => 1) (fun _ _ _ => 1) b n q o =
        pZeroSensZeroBias.emission_bias o (quadIdx n q)) :=
  C7_zero_sensitivity pZeroSensZeroBias (fun _ _ => 1) (fun _ _ _ => 1)
    (fun _ _ _ => rfl)

lemma iswShapeR_lastI (c : Cfg) (a : Nat) (Br : List Nat) :
    iswShapeR c (c.in_features :: a :: Br) =
      some (a :: c.in_features :: c.out_features :: Br) := by
  simp [iswShapeR, componentsPerInputShapeR, permuteSwapLast2, unsqueezeNeg3]

lemma iswShapeR_last1 (c : Cfg) (a : Nat) (Br : List Nat) :
    iswShapeR c (1 :: a :: Br) =
      some (a :: c.in_features :: c.out_features :: Br) := by
  simp [iswShapeR, componentsPerInputShapeR, permuteSwapLast2, unsqueezeNeg3]

lemma iswShapeR_inOne (c : Cfg) (hI : c.in_features = 1) (a b : Nat)
    (Br : List Nat) :
    iswShapeR c (b :: a :: Br) = some (a :: b :: c.out_features :: Br) := by
  simp [iswShapeR, componentsPerInputShapeR, permuteSwapLast2, unsqueezeNeg3, hI]

lemma envShapeR_none_of_mode_mismatch (c : Cfg) (a b : Nat) (Br : List Nat)
    (hd : bdim a c.theta_modes_in = none)
    (hisw : iswShapeR c (b :: a :: Br) =
      some (a :: c.in_features :: c.out_features :: Br) ∨
     iswShapeR c (b :: a :: Br) = some (a :: b :: c.out_features :: Br)) :
    envNormalizedShapeR c (b :: a :: Br) = none := by
  rcases hisw with h | h <;> simp [envNormalizedShapeR, ceiShapeR, h, sumNeg3, hd]

/-- C8 (amended): a trailing `components` axis that mismatches
`(theta_modes_in, in_features)` aborts the call only when it cannot
broadcast: a mismatched last axis of size ≠ 1 (with `in_features ≠ 1`)
fails, and a mismatched mode axis of size ≠ 1 (with `theta_modes_in ≠ 1`)
fails whatever the last axis, but size-1 axes broadcast silently, so
nonconformant shapes can succeed; conformant shapes with positive sizes
always succeed. -/
theorem C8_shape_failures (c : Cfg) (xs B : List Nat) (a b : Nat) :
    ((b ≠ c.in_features ∧ b ≠ 1 ∧ c.in_features ≠ 1) →
      forwardShape c xs (B ++ [a, b]) = none) ∧
    ((a ≠ c.theta_modes_in ∧ a ≠ 1 ∧ c.theta_modes_in ≠ 1) →
      forwardShape c xs (B ++ [a, b]) = none) ∧
    ((0 < c.out_features ∧ 0 < c.theta_modes_out ∧ ∀ d ∈ B, 0 < d) →
      forwardShape c (B ++ [c.in_features])
          (B ++ [c.theta_modes_in, c.in_features]) =
        some (B ++ [c.out_features],
          B ++ [c.theta_modes_out, 4, c.out_features])) := by
  refine ⟨?_, ?_, ?_⟩
  · rintro ⟨hbI, hb1, hI1⟩
    have hnone : iswShapeR c (b :: a :: B.reverse) = none := by
      simp [iswShapeR, componentsPerInputShapeR, permuteSwapLast2, unsqueezeNeg3,
        bdim_none c.in_features b hI1 hb1 (Ne.symm hbI)]
    simp [forwardShape, List.reverse_append, forwardShapeR_of_isw_none c _ _ hnone]
  · rintro ⟨haM, ha1, hM1⟩
    have hd := bdim_none a c.theta_modes_in ha1 hM1 haM
    by_cases hI1 : c.in_features = 1
    · have hnone := envShapeR_none_of_mode_mismatch c a b B.reverse hd
        (Or.inr (iswShapeR_inOne c hI1 a b B.reverse))
      simp [forwardShape, List.reverse_append, forwardShapeR_of_env_none c _ _ hnone]
    · by_cases hbI : b = c.in_features
      · subst hbI
        have hnone := envShapeR_none_of_mode_mismatch c a c.in_features B.reverse hd
          (Or.inl (iswShapeR_lastI c a B.reverse))
        simp [forwardShape, List.reverse_append,
          forwardShapeR_of_env_none c _ _ hnone]
      · by_cases hb1 : b = 1
        · subst hb1
          have hnone := envShapeR_none_of_mode_mismatch c a 1 B.reverse hd
            (Or.inl (iswShapeR_last1 c a B.reverse))
          simp [forwardShape, List.reverse_append,
            forwardShapeR_of_env_none c _ _ hnone]
        · have hnone : iswShapeR c (b :: a :: B.reverse) = none := by
            simp [iswShapeR, componentsPerInputShapeR, permuteSwapLast2,
              unsqueezeNeg3, bdim_none c.in_features b hI1 hb1 (Ne.symm hbI)]
          simp [forwardShape, List.reverse_append,
            forwardShapeR_of_isw_none c _ _ hnone]
  · rintro ⟨hO, hN, hB⟩
    have hBr : 0 < B.reverse.prod := by
      rw [List.prod_reverse]
      exact list_prod_pos B hB
    have hcore := forwardShapeR_conformant c B.reverse
      (Nat.mul_pos hN (Nat.mul_pos hO hBr))
    simp [forwardShape, List.reverse_append, hcore]

/-- C8: counterexample to "fails for every nonconformant trailing pair":
with `in_features = 2`, `theta_modes_in = 3`, a `components` of shape
`[5, 3, 1]` (trailing `(3, 1) ≠ (3, 2)`) broadcasts through and the call
succeeds. -/
theorem C8_counterexample :
    (forwardShape ⟨2, 1, 3, 1, true, true, true⟩ [5, 2] [5, 3, 1]).isSome = true ∧
    ([3, 1] : List Nat) ≠ [3, 2] := by
  decide

/-- Witness for `C8_shape_failures`: last-axis mismatch `(2, 7)` at
`in_features = 3`; mode-axis mismatch `(4, 2)` at `in_features = 1`,
`theta_modes_in = 3`; and conformant success at `in_features = 3`,
`theta_modes_in = 2`, batch `[6]`. -/
theorem C8_witness :
    forwardShape ⟨3, 4, 2, 5, true, true, true⟩ [6, 3] ([6] ++ [2, 7]) = none ∧
    forwardShape ⟨1, 4, 3, 5, true, true, true⟩ [6, 1] ([6] ++ [4, 2]) = none ∧
    forwardShape ⟨3, 4, 2, 5, true, true, true⟩ ([6] ++ [3]) ([6] ++ [2, 3]) =
      some ([6] ++ [4], [6] ++ [5, 4, 4]) :=
  ⟨(C8_shape_failures ⟨3, 4, 2, 5, true, true, true⟩ [6, 3] [6] 2 7).1
      ⟨by decide, by decide, by decide⟩,
    (C8_shape_failures ⟨1, 4, 3, 5, true, true, true⟩ [6, 1] [6] 4 2).2.1
      ⟨by decide, by decide, by decide⟩,
    (C8_shape_failures ⟨3, 4, 2, 5, true, true, true⟩ [6, 3] [6] 0 0).2.2
      ⟨by decide, by decide, by decide⟩⟩

/-- C9: `forward` mutates no layer state — in the state-passing view of the
method (which contains no write to `self` or to any module state), the
parameter record comes back unchanged. -/
theorem C9_forward_is_pure :
    ∀ {I O M N : Nat} {full : Bool} {β : Type}
      (nIn : (β → Fin I → Fin M → ℚ) → β → Fin I → Fin M → ℚ)
      (nOut : (β → Fin O → Fin M → ℚ) → β → Fin O → Fin M → ℚ)
      (p : ThetaParams I O M N full) (x : β → Fin I → ℚ)
      (components : β → Fin M → Fin I → ℚ),
      (forwardStateful nIn nOut p x components).1 = p :=
  fun _ _ _ _ _ => rfl

/-- C10: `transformed_x` does not depend on `emission`, `emission_scale`
or `emission_bias`: two parameter records agreeing on every other field
produce the same first output. -/
theorem C10_transformed_x_ignores_emission {I O M N : Nat} {full : Bool}
    {β : Type}
    (nIn : (β → Fin I → Fin M → ℚ) → β → Fin I → Fin M → ℚ)
    (nOut : (β → Fin O → Fin M → ℚ) → β → Fin O → Fin M → ℚ)
    (p q : ThetaParams I O M N full)
    (hsen : p.individual_sensetivity = q.individual_sensetivity)
    (henv : p.env_sensetivity = q.env_sensetivity)
    (hbias : p.env_bias = q.env_bias)
    (hper : p.perception = q.perception)
    (hpb : p.perceptual_bias = q.perceptual_bias)
    (hw : p.weight = q.weight)
    (hb : p.bias = q.bias)
    (x : β → Fin I → ℚ) (components : β → Fin M → Fin I → ℚ) :
    (forwardV nIn nOut p x components).1 = (forwardV nIn nOut q x components).1 := by
  have henvb : env_biased p components = env_biased q components := by
    funext b i m
    simp only [env_biased, env_sensed, cumulative_env_inputs,
      individual_sensetivity_weighted, components_per_input, hsen, henv, hbias]
  funext b o
  simp only [forwardV, transformed_x, perceptual_x, env_normalized, henvb,
    hper, hpb, hw, hb]

/-- Witness for `C10_transformed_x_ignores_emission`: `pBase` and
`pBaseEmissionChanged` differ exactly in the three emission parameters. -/
theorem C10_witness :
    (forwardV (β := Fin 1) id id pBase (fun _ _ => 1) (fun _ _ _ => 1)).1 =
      (forwardV (β := Fin 1) id id pBaseEmissionChanged (fun _ _ => 1) (fun _ _ _ => 1)).1 :=
  C10_transformed_x_ignores_emission (β := Fin 1) id id pBase pBaseEmissionChanged
    rfl rfl rfl rfl rfl rfl rfl (fun _ _ => 1) (fun _ _ _ => 1)

end DyNA
